import Mathlib

/-!
Verification development for the snips generate pipeline.

The Go sources are shallowly embedded: file names are lists of characters,
Go maps become association lists, the three stores of the event handler are
an explicit state record, and the external collaborators (filesystem stat,
the renderer chain, the artifact writer, file removal) are parameters of
the operations.  Side effects on the filesystem are recorded as call logs
in the result records so that frame conditions can be stated.
-/

namespace Snips

/-- Association-list lookup, mirroring a Go map read that returns the first
binding for a key (insertion shadows older bindings). -/
def alookup {α : Type} : List (List Char × α) → List Char → Option α
  | [], _ => none
  | (k, v) :: rest, key => if k = key then some v else alookup rest key

/-- Go map read with the zero value `0` for a missing key, as in
`h.fileNameToLastModTime[fileName]`. -/
def lookupD0 (l : List (List Char × Nat)) (k : List Char) : Nat :=
  (alookup l k).getD 0

/-- The marker `.code.` searched for by `ContainsDotCodeDot` (src/code.go). -/
def sepCodeDot : List Char := ['.', 'c', 'o', 'd', 'e', '.']

/-- The shared extracted-text artifact suffix `_code.txt`
(src/cmd/snips/generatecmd/eventhandler.go, HandleEvent). -/
def codeTxtSuffix : List Char := ['_', 'c', 'o', 'd', 'e', '.', 't', 'x', 't']

/-- The generated-code suffix `_templ.go` appended to the source file name
(eventhandler.go, generate). -/
def templGoSuffix : List Char := ['_', 't', 'e', 'm', 'p', 'l', '.', 'g', 'o']

/-- The constant text artifact name `_code.txt` used by generate. -/
def txtFileName : List Char := ['_', 'c', 'o', 'd', 'e', '.', 't', 'x', 't']

/-- Model of Go `strings.LastIndex`: the largest index at which `sep`
occurs in `s`, or `none` (Go returns -1). -/
def lastIndexOpt (sep s : List Char) : Option Nat :=
  (List.range (s.length + 1)).reverse.find? (fun i => sep.isPrefixOf (s.drop i))

/-- src/code.go `ContainsDotCodeDot`:
`index := strings.LastIndex(name, ".code."); return index != -1 && index < len(name)-6`. -/
def ContainsDotCodeDot (name : List Char) : Bool :=
  match lastIndexOpt sepCodeDot name with
  | none => false
  | some index => decide (index < name.length - 6)

/-- Following the spec's words: a name contains the `.code.` marker followed
by at least one further character.  Used to compare the spec's relevance
predicate with the source's `ContainsDotCodeDot`. -/
def specContainsMarker (name : List Char) : Bool :=
  (List.range name.length).any
    (fun i => sepCodeDot.isPrefixOf (name.drop i) && decide (i + 6 < name.length))

/-- An fsnotify event: its name and whether `event.Has(fsnotify.Remove)`. -/
structure Event where
  name : List Char
  isRemove : Bool
deriving DecidableEq

/-- The mutable state of eventhandler.go's `FSEventHandler`: the three
stores and the dev-mode flag.  The logger, generation options and writer
are modelled as parameters, not state. -/
structure FSEventHandler where
  fileNameToLastModTime : List (List Char × Nat)
  fileNameToError : List (List Char)
  hashes : List (List Char × List Nat)
  devMode : Bool
deriving DecidableEq

/-- eventhandler.go `NewFSEventHandler`: all three stores start as fresh
empty maps (`make(map...)`). -/
def NewFSEventHandler (devMode : Bool) : FSEventHandler :=
  { fileNameToLastModTime := [], fileNameToError := [], hashes := [], devMode := devMode }

/-- The external collaborators of the event handler, per spec section 1:
`stat` models `os.Stat` (modification time or failure); `render` collapses
the fallible chain read-file / parse / generator.Generate / format into one
opaque renderer returning the formatted code bytes and the literal text
bytes; `writerOk` tells whether `h.writer` succeeds for a write;
`txtWriteOk` tells whether the `os.WriteFile` of the text artifact
succeeds; `removeOk` tells whether `os.Remove` succeeds; `hashFn` models
`sha256.Sum256` as an opaque digest function of the bytes. -/
structure Env where
  stat : List Char → Option Nat
  render : List Char → Except (List Char) (List Nat × List Nat)
  writerOk : List Char → List Nat → Bool
  txtWriteOk : List Char → List Nat → Bool
  removeOk : List Char → Bool
  hashFn : List Nat → List Nat

/-- eventhandler.go `FSEventHandler.SetError`: reads previous membership,
deletes the entry, re-adds it when `hasError`, and returns the previous
membership with the resulting error count. -/
def SetError (h : FSEventHandler) (fileName : List Char) (hasError : Bool) :
    (Bool × Nat) × FSEventHandler :=
  let previouslyHadError := decide (fileName ∈ h.fileNameToError)
  let deleted := h.fileNameToError.filter (fun n => n ≠ fileName)
  let errs := if hasError then fileName :: deleted else deleted
  ((previouslyHadError, errs.length), { h with fileNameToError := errs })

/-- eventhandler.go `FSEventHandler.UpsertLastModTime`: returns the zero
time and `false` when stat fails; returns the current time and `false`
without mutating when the current time is not strictly after the stored
one; otherwise stores the current time and returns `true`. -/
def UpsertLastModTime (stat : List Char → Option Nat) (h : FSEventHandler)
    (fileName : List Char) : (Nat × Bool) × FSEventHandler :=
  match stat fileName with
  | none => ((0, false), h)
  | some currentModTime =>
    let previousModTime := lookupD0 h.fileNameToLastModTime fileName
    if currentModTime ≤ previousModTime then
      ((currentModTime, false), h)
    else
      ((currentModTime, true),
       { h with fileNameToLastModTime := (fileName, currentModTime) :: h.fileNameToLastModTime })

/-- The zero value of Go's `[sha256.Size]byte`, returned by a map read of a
missing key. -/
def zeroDigest : List Nat := List.replicate 32 0

/-- eventhandler.go `FSEventHandler.UpsertHash`: compare-and-set of the
stored digest under one critical section. -/
def UpsertHash (h : FSEventHandler) (fileName : List Char) (hash : List Nat) :
    Bool × FSEventHandler :=
  let lastHash := (alookup h.hashes fileName).getD zeroDigest
  if lastHash = hash then (false, h)
  else (true, { h with hashes := (fileName, hash) :: h.hashes })

/-- Errors produced inside `generate`: the wrapped renderer-chain error
(tagged with the file name, as the Go code tags each wrap), the target
write error, and the text artifact write error. -/
inductive GError where
  | renderError (fileName : List Char) (msg : List Char)
  | writeError (target : List Char)
  | txtWriteError (target : List Char)
deriving DecidableEq

/-- Outcome of `generate`: the returned triple, the resulting store state,
and logs of the calls made to `h.writer` and to `os.WriteFile` for the
text artifact. -/
structure GenResult where
  goUpdated : Bool
  textUpdated : Bool
  err : Option GError
  handler : FSEventHandler
  writerCalls : List (List Char × List Nat)
  txtWriteCalls : List (List Char × List Nat)
deriving DecidableEq

/-- The tail of eventhandler.go `generate` (from the `len(literals) > 0`
check): hash the literal text under the constant key `_code.txt`, and if
changed write it, returning `false, false, err` on a write failure. -/
def generateTxt (env : Env) (h : FSEventHandler) (goUpdated : Bool)
    (writerCalls : List (List Char × List Nat)) (literals : List Nat) : GenResult :=
  if 0 < literals.length then
    let txtHash := env.hashFn literals
    let r := UpsertHash h txtFileName txtHash
    if r.1 then
      if env.txtWriteOk txtFileName literals then
        ⟨goUpdated, true, none, r.2, writerCalls, [(txtFileName, literals)]⟩
      else
        ⟨false, false, some (GError.txtWriteError txtFileName), r.2, writerCalls,
         [(txtFileName, literals)]⟩
    else
      ⟨goUpdated, false, none, r.2, writerCalls, []⟩
  else
    ⟨goUpdated, false, none, h, writerCalls, []⟩

/-- eventhandler.go `FSEventHandler.generate`: render, hash the output,
and if the hash changed write `fileName + "_templ.go"`, returning
`false, false, err` on a write failure (the hash is already committed);
then handle the literal text artifact. -/
def generate (env : Env) (h : FSEventHandler) (fileName : List Char) : GenResult :=
  match env.render fileName with
  | .error e => ⟨false, false, some (GError.renderError fileName e), h, [], []⟩
  | .ok (formattedGoCode, literals) =>
    let targetFileName := fileName ++ templGoSuffix
    let codeHash := env.hashFn formattedGoCode
    let r := UpsertHash h targetFileName codeHash
    if r.1 then
      if env.writerOk targetFileName formattedGoCode then
        generateTxt env r.2 true [(targetFileName, formattedGoCode)] literals
      else
        ⟨false, false, some (GError.writeError targetFileName), r.2,
         [(targetFileName, formattedGoCode)], []⟩
    else
      generateTxt env r.2 false [] literals

/-- The error returned by `HandleEvent`:
`fmt.Errorf("failed to generate code for %q: %w", event.Name, err)`. -/
inductive HError where
  | failedToGenerate (path : List Char) (inner : GError)
deriving DecidableEq

/-- Outcome of `HandleEvent`: the returned triple, the resulting state, the
call logs (renderer invocations, writer calls, text writes, removals) and
the error-cleared signal surfaced by the success path's `SetError`. -/
structure HandleResult where
  goUpdated : Bool
  textUpdated : Bool
  err : Option HError
  handler : FSEventHandler
  renderCalls : List (List Char)
  writerCalls : List (List Char × List Nat)
  txtWriteCalls : List (List Char × List Nat)
  removeCalls : List (List Char)
  errorCleared : Bool
deriving DecidableEq

/-- eventhandler.go `FSEventHandler.HandleEvent`. -/
def HandleEvent (env : Env) (h : FSEventHandler) (event : Event) : HandleResult :=
  if !event.isRemove && codeTxtSuffix.isSuffixOf event.name then
    if h.devMode then
      ⟨false, true, none, h, [], [], [], [], false⟩
    else if env.removeOk event.name then
      ⟨false, false, none, h, [], [], [], [event.name], false⟩
    else
      ⟨false, false, none, h, [], [], [], [event.name], false⟩
  else if !(ContainsDotCodeDot event.name) then
    ⟨false, false, none, h, [], [], [], [], false⟩
  else
    let r := UpsertLastModTime env.stat h event.name
    if !r.1.2 then
      ⟨false, false, none, r.2, [], [], [], [], false⟩
    else
      let g := generate env r.2 event.name
      match g.err with
      | some e =>
        let s := SetError g.handler event.name true
        ⟨g.goUpdated, g.textUpdated, some (HError.failedToGenerate event.name e), s.2,
         [event.name], g.writerCalls, g.txtWriteCalls, [], false⟩
      | none =>
        let s := SetError g.handler event.name false
        ⟨g.goUpdated, g.textUpdated, none, s.2,
         [event.name], g.writerCalls, g.txtWriteCalls, [], s.1.1⟩

/-- cmd.go `GenerationEvent`. -/
structure GenerationEvent where
  event : Event
  goUpdated : Bool
  textUpdated : Bool
deriving DecidableEq

/-- cmd.go Run, worker body (lines 189-205): handle the event, and push a
`GenerationEvent` onto `postGeneration` only when `goUpdated || textUpdated`. -/
def processEvent (env : Env) (h : FSEventHandler) (event : Event) :
    HandleResult × List GenerationEvent :=
  let r := HandleEvent env h event
  (r, if r.goUpdated || r.textUpdated then [⟨event, r.goUpdated, r.textUpdated⟩] else [])

/-- The run-level mutable state touched by the watch-to-production
transition: the current event handler and the atomic error counter. -/
structure RunState where
  fseh : FSEventHandler
  errorCount : Nat
deriving DecidableEq

/-- cmd.go Run, lines 161-171: on watch cancellation a brand-new
`FSEventHandler` is constructed with production mode forced
(`fseh = NewFSEventHandler(..., false, ...)`) and the error counter is
zeroed (`errorCount.Store(0)`). -/
def productionReset (_s : RunState) : RunState :=
  { fseh := NewFSEventHandler false, errorCount := 0 }

/-- src/unnamed/part_000 `EscapeWriter.Write`, the escaping loop: builds
`processed` by appending, per input byte, the escape of `"` (34) as
`\` `"` (92, 34), of newline (10) as `\` `n` (92, 110), and any other byte
unchanged. -/
def escProcessed (p : List Nat) : List Nat :=
  p.foldl (fun processed b =>
    if b = 34 then processed ++ [92, 34]
    else if b = 10 then processed ++ [92, 110]
    else processed ++ [b]) []

/-- `bytes.Buffer.Write`: consumes all bytes, returns their count and no
error. -/
def bufferWrite (bs : List Nat) : Nat × Option (List Char) := (bs.length, none)

/-- `EscapeWriter.Write`: escape the input and return the underlying
writer's result (`return w.w.Write(processed)`). -/
def escapeWriterWrite (underlying : List Nat → Nat × Option (List Char)) (p : List Nat) :
    Nat × Option (List Char) :=
  underlying (escProcessed p)

/-- Per-byte escape map, following the claim's words. -/
def escByteSpec (b : Nat) : List Nat :=
  if b = 34 then [92, 34] else if b = 10 then [92, 110] else [b]

/-- The claim's description of the escaped output: every byte mapped
independently through `escByteSpec`. -/
def escSpec (p : List Nat) : List Nat := p.flatMap escByteSpec

/-- The separator `.code` of eventhandler.go `stripCode`. -/
def sepCode : List Char := ['.', 'c', 'o', 'd', 'e']

/-- Model of Go `strings.Split(fileName, ".code")`: splits around each
leftmost non-overlapping occurrence of `.code`. -/
def splitCode : List Char → List (List Char)
  | [] => [[]]
  | c :: rest =>
    if sepCode.isPrefixOf (c :: rest) then
      [] :: splitCode (rest.drop 4)
    else
      match splitCode rest with
      | [] => [[c]]
      | p :: ps => (c :: p) :: ps
termination_by s => s.length
decreasing_by
  · simp
    omega
  · simp

/-- eventhandler.go `stripCode`: split on `.code`; if there are not
exactly two parts return the name unchanged, else concatenate the parts. -/
def stripCode (fileName : List Char) : List Char :=
  match splitCode fileName with
  | [a, b] => a ++ b
  | _ => fileName

/-- Number of occurrences of `.code` in a name (at every starting index;
`.code` cannot overlap itself). -/
def occCode : List Char → Nat
  | [] => 0
  | c :: rest => (if sepCode.isPrefixOf (c :: rest) then 1 else 0) + occCode rest

/-- Rebuild a name from its split parts, interleaving the separator. -/
def joinCode : List (List Char) → List Char
  | [] => []
  | [p] => p
  | p :: q :: ps => p ++ sepCode ++ joinCode (q :: ps)

/-- A sample environment where every filesystem interaction is inert:
stat fails, the renderer fails, writes succeed. -/
def trivEnv : Env :=
  { stat := fun _ => none
    render := fun _ => .error []
    writerOk := fun _ _ => true
    txtWriteOk := fun _ _ => true
    removeOk := fun _ => true
    hashFn := fun b => b }

/-- A sample environment whose renderer fails with message `x` and whose
stat reports modification time 1. -/
def envFail : Env :=
  { stat := fun _ => some 1
    render := fun _ => .error ['x']
    writerOk := fun _ _ => true
    txtWriteOk := fun _ _ => true
    removeOk := fun _ => true
    hashFn := fun b => b }

/-- A sample environment whose renderer succeeds with code `[7]` and
literals `[8]`, and whose stat reports modification time 2. -/
def envOk : Env :=
  { stat := fun _ => some 2
    render := fun _ => .ok ([7], [8])
    writerOk := fun _ _ => true
    txtWriteOk := fun _ _ => true
    removeOk := fun _ => true
    hashFn := fun b => b }

/-- A sample relevant file name `a.code.go`. -/
def sampleName : List Char := ['a', '.', 'c', 'o', 'd', 'e', '.', 'g', 'o']

/-- A sample environment whose target writer fails. -/
def envWriteFail : Env :=
  { stat := fun _ => some 1
    render := fun _ => .ok ([7], [8])
    writerOk := fun _ _ => false
    txtWriteOk := fun _ _ => true
    removeOk := fun _ => true
    hashFn := fun b => b }

/-! ## Helper lemmas -/

theorem specContainsMarker_of_containsDotCodeDot {name : List Char}
    (hc : ContainsDotCodeDot name = true) : specContainsMarker name = true := by
  unfold ContainsDotCodeDot at hc
  cases hl : lastIndexOpt sepCodeDot name with
  | none => rw [hl] at hc; simp at hc
  | some i =>
    rw [hl] at hc
    have hi : i < name.length - 6 := by simpa using hc
    have hpref : sepCodeDot.isPrefixOf (name.drop i) = true := by
      have hfind : ((List.range (name.length + 1)).reverse.find?
          (fun j => sepCodeDot.isPrefixOf (name.drop j))) = some i := by
        simpa [lastIndexOpt] using hl
      simpa using List.find?_some hfind
    have hlen : i + 6 < name.length := by omega
    unfold specContainsMarker
    rw [List.any_eq_true]
    exact ⟨i, List.mem_range.mpr (by omega), by simp [hpref, hlen]⟩

theorem containsDotCodeDot_false_of_spec {name : List Char}
    (hm : specContainsMarker name = false) : ContainsDotCodeDot name = false := by
  cases hb : ContainsDotCodeDot name with
  | false => rfl
  | true =>
    rw [specContainsMarker_of_containsDotCodeDot hb] at hm
    exact absurd hm (by simp)

theorem handleEvent_irrelevant_noop (env : Env) (h : FSEventHandler) (ev : Event)
    (hs : codeTxtSuffix.isSuffixOf ev.name = false)
    (hc : ContainsDotCodeDot ev.name = false) :
    HandleEvent env h ev = ⟨false, false, none, h, [], [], [], [], false⟩ := by
  unfold HandleEvent
  simp [hs, hc]

theorem UpsertLastModTime_not_updated {stat : List Char → Option Nat}
    {h : FSEventHandler} {fileName : List Char}
    (hu : (UpsertLastModTime stat h fileName).1.2 = false) :
    (UpsertLastModTime stat h fileName).2 = h := by
  unfold UpsertLastModTime at *
  cases hs : stat fileName with
  | none => simp
  | some t =>
    rw [hs] at hu
    by_cases hle : t ≤ lookupD0 h.fileNameToLastModTime fileName
    · simp [hs, hle]
    · simp [hle] at hu

theorem UpsertLastModTime_updated {stat : List Char → Option Nat}
    {h : FSEventHandler} {fileName : List Char} {t : Nat}
    (hs : stat fileName = some t)
    (hlt : lookupD0 h.fileNameToLastModTime fileName < t) :
    UpsertLastModTime stat h fileName =
      ((t, true),
       { h with fileNameToLastModTime := (fileName, t) :: h.fileNameToLastModTime }) := by
  have hle : ¬ (t ≤ lookupD0 h.fileNameToLastModTime fileName) := by omega
  unfold UpsertLastModTime
  rw [hs]
  simp [hle]

/-! ## C1: watch-to-production transition -/

/-- C1 counterexample: a digest recorded before the watch-to-production
transition is not held by the dedup store afterwards — the transition
constructs a brand-new handler whose hash store is a fresh empty map, so
the claim that the hash store is preserved is false at this input. -/
theorem C1_hash_not_preserved_cex :
    alookup (RunState.mk ⟨[], [], [(['k'], [1, 2])], true⟩ 5).fseh.hashes ['k'] =
        some [1, 2] ∧
    alookup (productionReset (RunState.mk ⟨[], [], [(['k'], [1, 2])], true⟩ 5)).fseh.hashes
        ['k'] = none := by
  constructor <;> rfl

/-- C1 (amended): when the watch is cancelled and the production walk is
started, the mod-time store and the error count are cleared — but so is
the hash store: a brand-new handler with all three stores empty and watch
mode forced off is constructed, so previously recorded digests are not
retained and unchanged files are rewritten during the production walk. -/
theorem C1_production_reset_clears_everything (s : RunState) (k : List Char) :
    (productionReset s).fseh.fileNameToLastModTime = [] ∧
    (productionReset s).fseh.fileNameToError = [] ∧
    (productionReset s).errorCount = 0 ∧
    (productionReset s).fseh.devMode = false ∧
    alookup (productionReset s).fseh.hashes k = none := by
  refine ⟨rfl, rfl, rfl, rfl, rfl⟩

/-! ## C2: GenerationEvent emission -/

/-- C2 counterexample: an event processed by the handler as a no-op
(irrelevant path, `goUpdated = textUpdated = false`, no error) emits no
GenerationEvent at all, contradicting the claim that every processed
event, including no-op ones, emits one. -/
theorem C2_noop_emits_nothing_cex :
    (HandleEvent trivEnv (NewFSEventHandler false) ⟨['a'], false⟩).err = none ∧
    (HandleEvent trivEnv (NewFSEventHandler false) ⟨['a'], false⟩).goUpdated = false ∧
    (HandleEvent trivEnv (NewFSEventHandler false) ⟨['a'], false⟩).textUpdated = false ∧
    (processEvent trivEnv (NewFSEventHandler false) ⟨['a'], false⟩).2 = [] := by
  refine ⟨rfl, rfl, rfl, rfl⟩

/-- C2 (amended): a GenerationEvent is pushed to the settle coordinator
only when the handler reported a code or text update, and it then carries
the handler's two flags; no-op events (both flags false, in particular
events on irrelevant paths) emit nothing. -/
theorem C2_generation_event_only_on_update (env : Env) (h : FSEventHandler) (ev : Event) :
    ((HandleEvent env h ev).goUpdated = false ∧ (HandleEvent env h ev).textUpdated = false →
      (processEvent env h ev).2 = []) ∧
    (((HandleEvent env h ev).goUpdated || (HandleEvent env h ev).textUpdated) = true →
      (processEvent env h ev).2 =
        [⟨ev, (HandleEvent env h ev).goUpdated, (HandleEvent env h ev).textUpdated⟩]) ∧
    (codeTxtSuffix.isSuffixOf ev.name = false → specContainsMarker ev.name = false →
      (processEvent env h ev).2 = []) := by
  refine ⟨?_, ?_, ?_⟩
  · rintro ⟨h1, h2⟩
    simp [processEvent, h1, h2]
  · intro h1
    simp [processEvent, h1]
  · intro hs hm
    have hno := handleEvent_irrelevant_noop env h ev hs (containsDotCodeDot_false_of_spec hm)
    simp [processEvent, hno]

/-- Witness for C2's amended theorem at a concrete no-op input. -/
theorem C2_generation_event_only_on_update_witness :
    (processEvent trivEnv (NewFSEventHandler false) ⟨['a'], false⟩).2 = [] :=
  (C2_generation_event_only_on_update trivEnv (NewFSEventHandler false)
    ⟨['a'], false⟩).2.2 (by decide) (by decide)

/-! ## C5: irrelevant paths are a pure no-op -/

/-- C5: for every path that does not end in `_code.txt` and does not
contain the `.code.` marker followed by at least one further character,
HandleEvent returns `(false, false, nil)` and performs no side effect:
the three stores are untouched and no renderer, writer or removal call is
made. -/
theorem C5_irrelevant_paths_noop (env : Env) (h : FSEventHandler) (ev : Event)
    (hs : codeTxtSuffix.isSuffixOf ev.name = false)
    (hm : specContainsMarker ev.name = false) :
    HandleEvent env h ev = ⟨false, false, none, h, [], [], [], [], false⟩ :=
  handleEvent_irrelevant_noop env h ev hs (containsDotCodeDot_false_of_spec hm)

/-- Witness for C5 at a concrete irrelevant path. -/
theorem C5_irrelevant_paths_noop_witness :
    HandleEvent trivEnv (NewFSEventHandler false) ⟨['b'], false⟩ =
      ⟨false, false, none, NewFSEventHandler false, [], [], [], [], false⟩ :=
  C5_irrelevant_paths_noop trivEnv (NewFSEventHandler false) ⟨['b'], false⟩
    (by decide) (by decide)

/-! ## C8: `_code.txt` events -/

/-- C8: for every non-removal event naming a `_code.txt` file, in dev
(watch) mode HandleEvent reports `(false, true, nil)` touching neither the
filesystem nor any store; in production mode it attempts the deletion and
reports `(false, false, nil)` whether or not the deletion succeeds (a
failure is logged, not returned). -/
theorem C8_code_txt_events (env : Env) (h : FSEventHandler) (ev : Event)
    (hr : ev.isRemove = false)
    (hs : codeTxtSuffix.isSuffixOf ev.name = true) :
    (h.devMode = true →
      HandleEvent env h ev = ⟨false, true, none, h, [], [], [], [], false⟩) ∧
    (h.devMode = false →
      HandleEvent env h ev = ⟨false, false, none, h, [], [], [], [ev.name], false⟩) := by
  unfold HandleEvent
  constructor <;> intro hd <;> simp [hr, hs, hd]

/-- Witness for C8 at a concrete `_code.txt` event in both modes. -/
theorem C8_code_txt_events_witness :
    HandleEvent trivEnv (NewFSEventHandler true) ⟨codeTxtSuffix, false⟩ =
      ⟨false, true, none, NewFSEventHandler true, [], [], [], [], false⟩ ∧
    HandleEvent trivEnv (NewFSEventHandler false) ⟨codeTxtSuffix, false⟩ =
      ⟨false, false, none, NewFSEventHandler false, [], [], [], [codeTxtSuffix], false⟩ :=
  ⟨(C8_code_txt_events trivEnv (NewFSEventHandler true) ⟨codeTxtSuffix, false⟩
      rfl (by decide)).1 rfl,
   (C8_code_txt_events trivEnv (NewFSEventHandler false) ⟨codeTxtSuffix, false⟩
      rfl (by decide)).2 rfl⟩

/-! ## Hash store and generate lemmas -/

theorem UpsertHash_true {h : FSEventHandler} {k : List Char} {d : List Nat}
    (hu : (UpsertHash h k d).1 = true) :
    (UpsertHash h k d).2 = { h with hashes := (k, d) :: h.hashes } := by
  unfold UpsertHash at *
  by_cases he : (alookup h.hashes k).getD zeroDigest = d
  · simp [he] at hu
  · simp [he]

theorem UpsertHash_false {h : FSEventHandler} {k : List Char} {d : List Nat}
    (hu : (UpsertHash h k d).1 = false) :
    (UpsertHash h k d).2 = h ∧ (alookup h.hashes k).getD zeroDigest = d := by
  unfold UpsertHash at *
  by_cases he : (alookup h.hashes k).getD zeroDigest = d
  · exact ⟨by simp [he], he⟩
  · simp [he] at hu

theorem target_ne_txt (f : List Char) : f ++ templGoSuffix ≠ txtFileName := by
  intro hEq
  have hlen := congrArg List.length hEq
  simp [templGoSuffix, txtFileName] at hlen
  have hf : f = [] := hlen
  subst hf
  exact absurd hEq (by decide)

theorem generateTxt_handler (env : Env) (h : FSEventHandler) (g : Bool)
    (w : List (List Char × List Nat)) (lits : List Nat) :
    (generateTxt env h g w lits).handler = h ∨
    (generateTxt env h g w lits).handler =
      { h with hashes := (txtFileName, env.hashFn lits) :: h.hashes } := by
  unfold generateTxt
  by_cases hl : 0 < lits.length
  · cases hb : (UpsertHash h txtFileName (env.hashFn lits)).1 with
    | false =>
      left
      simp [hl, hb, (UpsertHash_false hb).1]
    | true =>
      right
      have h2 := UpsertHash_true hb
      by_cases ht : env.txtWriteOk txtFileName lits <;> simp [hl, hb, ht, h2]
  · left
    simp [hl]

theorem generateTxt_writerCalls (env : Env) (h : FSEventHandler) (g : Bool)
    (w : List (List Char × List Nat)) (lits : List Nat) :
    (generateTxt env h g w lits).writerCalls = w := by
  unfold generateTxt
  by_cases hl : 0 < lits.length
  · cases hb : (UpsertHash h txtFileName (env.hashFn lits)).1 with
    | false => simp [hl, hb]
    | true => by_cases ht : env.txtWriteOk txtFileName lits <;> simp [hl, hb, ht]
  · simp [hl]

theorem generateTxt_goUpdated_false (env : Env) (h : FSEventHandler)
    (w : List (List Char × List Nat)) (lits : List Nat) :
    (generateTxt env h false w lits).goUpdated = false := by
  unfold generateTxt
  by_cases hl : 0 < lits.length
  · cases hb : (UpsertHash h txtFileName (env.hashFn lits)).1 with
    | false => simp [hl, hb]
    | true => by_cases ht : env.txtWriteOk txtFileName lits <;> simp [hl, hb, ht]
  · simp [hl]

theorem generateTxt_err_none {env : Env} {h : FSEventHandler} {g : Bool}
    {w : List (List Char × List Nat)} {lits : List Nat}
    (ht : env.txtWriteOk txtFileName lits = true) :
    (generateTxt env h g w lits).err = none := by
  unfold generateTxt
  by_cases hl : 0 < lits.length
  · cases hb : (UpsertHash h txtFileName (env.hashFn lits)).1 with
    | false => simp [hl, hb]
    | true => simp [hl, hb, ht]
  · simp [hl]

theorem generateTxt_alookup (env : Env) (h : FSEventHandler) (g : Bool)
    (w : List (List Char × List Nat)) (lits : List Nat) {t : List Char}
    (hne : txtFileName ≠ t) :
    alookup (generateTxt env h g w lits).handler.hashes t = alookup h.hashes t := by
  rcases generateTxt_handler env h g w lits with hg | hg <;> simp [hg, alookup, hne]

theorem generate_hash_after {env : Env} {h : FSEventHandler} {f : List Char}
    {code lits : List Nat} (hren : env.render f = .ok (code, lits)) :
    (alookup (generate env h f).handler.hashes (f ++ templGoSuffix)).getD zeroDigest =
      env.hashFn code := by
  have hne : txtFileName ≠ f ++ templGoSuffix := fun hEq => target_ne_txt f hEq.symm
  unfold generate
  rw [hren]
  cases hu : (UpsertHash h (f ++ templGoSuffix) (env.hashFn code)).1 with
  | true =>
    have h2 := UpsertHash_true hu
    by_cases hw : env.writerOk (f ++ templGoSuffix) code
    · simp only [hu, hw, if_true]
      rw [generateTxt_alookup env _ true [(f ++ templGoSuffix, code)] lits hne, h2]
      simp [alookup]
    · simp only [hu, hw, if_true, if_false, Bool.false_eq_true]
      rw [h2]
      simp [alookup]
  | false =>
    obtain ⟨h2, he⟩ := UpsertHash_false hu
    simp only [hu, Bool.false_eq_true, if_false]
    rw [generateTxt_alookup env _ false [] lits hne, h2]
    exact he

theorem generate_no_write_of_hash_present {env : Env} {h : FSEventHandler} {f : List Char}
    {code lits : List Nat} (hren : env.render f = .ok (code, lits))
    (hh : (alookup h.hashes (f ++ templGoSuffix)).getD zeroDigest = env.hashFn code) :
    (generate env h f).writerCalls = [] ∧ (generate env h f).goUpdated = false := by
  have hu : (UpsertHash h (f ++ templGoSuffix) (env.hashFn code)).1 = false := by
    unfold UpsertHash
    simp [hh]
  unfold generate
  rw [hren]
  constructor
  · simp [hu, generateTxt_writerCalls]
  · simp [hu, generateTxt_goUpdated_false]

theorem generate_writerCalls_of_changed {env : Env} {h : FSEventHandler} {f : List Char}
    {code lits : List Nat} (hren : env.render f = .ok (code, lits))
    (hu : (UpsertHash h (f ++ templGoSuffix) (env.hashFn code)).1 = true) :
    (generate env h f).writerCalls = [(f ++ templGoSuffix, code)] := by
  unfold generate
  rw [hren]
  by_cases hw : env.writerOk (f ++ templGoSuffix) code <;>
    simp [hu, hw, generateTxt_writerCalls]

/-! ## C3: dedup store idempotence -/

/-- C3: once `UpsertHash k d` has returned `true`, an immediately
following `UpsertHash k d` returns `false` and leaves the store unchanged;
consequently rendering the same output bytes twice performs no writer call
on the second render, and the first render (whose digest differed) calls
the artifact writer exactly once for the target key. -/
theorem C3_upsert_hash_idempotent (env : Env) (h : FSEventHandler) (k f : List Char)
    (d code lits : List Nat) :
    ((UpsertHash h k d).1 = true →
      UpsertHash (UpsertHash h k d).2 k d = (false, (UpsertHash h k d).2)) ∧
    (env.render f = .ok (code, lits) →
      (generate env (generate env h f).handler f).writerCalls = [] ∧
      ((UpsertHash h (f ++ templGoSuffix) (env.hashFn code)).1 = true →
        (generate env h f).writerCalls = [(f ++ templGoSuffix, code)])) := by
  constructor
  · intro hu
    rw [UpsertHash_true hu]
    unfold UpsertHash
    simp [alookup]
  · intro hren
    refine ⟨?_, fun hu => generate_writerCalls_of_changed hren hu⟩
    exact (generate_no_write_of_hash_present hren (generate_hash_after hren)).1

/-- Witness for C3 at concrete inputs. -/
theorem C3_upsert_hash_idempotent_witness :
    UpsertHash (UpsertHash (NewFSEventHandler false) ['k'] [1]).2 ['k'] [1] =
      (false, (UpsertHash (NewFSEventHandler false) ['k'] [1]).2) ∧
    (generate envOk (generate envOk (NewFSEventHandler false) sampleName).handler
      sampleName).writerCalls = [] := by
  have hthm := C3_upsert_hash_idempotent envOk (NewFSEventHandler false) ['k'] sampleName
    [1] [7] [8]
  exact ⟨hthm.1 (by decide), (hthm.2 rfl).1⟩

/-! ## C7: write failure does not roll back the hash -/

/-- C7: when the rendered digest differs from the stored one and the
artifact write fails, `generate` returns the write error (with the
returned flags false) but the hash store retains the committed digest, so
a later identical render performs no write and reports no update. -/
theorem C7_write_failure_no_rollback (env : Env) (h : FSEventHandler) (f : List Char)
    (code lits : List Nat)
    (hren : env.render f = .ok (code, lits))
    (hu : (UpsertHash h (f ++ templGoSuffix) (env.hashFn code)).1 = true)
    (hw : env.writerOk (f ++ templGoSuffix) code = false) :
    (generate env h f).err = some (GError.writeError (f ++ templGoSuffix)) ∧
    (generate env h f).goUpdated = false ∧ (generate env h f).textUpdated = false ∧
    alookup (generate env h f).handler.hashes (f ++ templGoSuffix) =
      some (env.hashFn code) ∧
    (generate env (generate env h f).handler f).writerCalls = [] ∧
    (generate env (generate env h f).handler f).goUpdated = false := by
  have hgen : generate env h f =
      ⟨false, false, some (GError.writeError (f ++ templGoSuffix)),
       { h with hashes := (f ++ templGoSuffix, env.hashFn code) :: h.hashes },
       [(f ++ templGoSuffix, code)], []⟩ := by
    unfold generate
    rw [hren]
    simp [hu, hw, UpsertHash_true hu]
  rw [hgen]
  have hpresent : (alookup ({ h with
      hashes := (f ++ templGoSuffix, env.hashFn code) :: h.hashes } :
        FSEventHandler).hashes (f ++ templGoSuffix)).getD zeroDigest = env.hashFn code := by
    simp [alookup]
  refine ⟨rfl, rfl, rfl, by simp [alookup], ?_, ?_⟩
  · exact (generate_no_write_of_hash_present hren hpresent).1
  · exact (generate_no_write_of_hash_present hren hpresent).2

/-- Witness for C7 at concrete inputs. -/
theorem C7_write_failure_no_rollback_witness :
    (generate envWriteFail (NewFSEventHandler false) sampleName).err =
      some (GError.writeError (sampleName ++ templGoSuffix)) ∧
    alookup (generate envWriteFail (NewFSEventHandler false) sampleName).handler.hashes
      (sampleName ++ templGoSuffix) = some [7] := by
  have hthm := C7_write_failure_no_rollback envWriteFail (NewFSEventHandler false)
    sampleName [7] [8] rfl (by decide) rfl
  exact ⟨hthm.1, hthm.2.2.2.1⟩

/-! ## Frame lemmas for the stores -/

theorem SetError_frame (h : FSEventHandler) (n : List Char) (b : Bool) :
    (SetError h n b).2.fileNameToLastModTime = h.fileNameToLastModTime ∧
    (SetError h n b).2.hashes = h.hashes := ⟨rfl, rfl⟩

theorem SetError_prev (h : FSEventHandler) (n : List Char) (b : Bool) :
    (SetError h n b).1.1 = decide (n ∈ h.fileNameToError) := rfl

theorem SetError_errors_true (h : FSEventHandler) (n : List Char) :
    (SetError h n true).2.fileNameToError =
      n :: h.fileNameToError.filter (fun m => m ≠ n) := rfl

theorem SetError_errors_false (h : FSEventHandler) (n : List Char) :
    (SetError h n false).2.fileNameToError =
      h.fileNameToError.filter (fun m => m ≠ n) := rfl

theorem generateTxt_frame (env : Env) (h : FSEventHandler) (g : Bool)
    (w : List (List Char × List Nat)) (lits : List Nat) :
    (generateTxt env h g w lits).handler.fileNameToLastModTime = h.fileNameToLastModTime ∧
    (generateTxt env h g w lits).handler.fileNameToError = h.fileNameToError := by
  rcases generateTxt_handler env h g w lits with hg | hg <;> simp [hg]

theorem generate_frame (env : Env) (h : FSEventHandler) (f : List Char) :
    (generate env h f).handler.fileNameToLastModTime = h.fileNameToLastModTime ∧
    (generate env h f).handler.fileNameToError = h.fileNameToError := by
  unfold generate
  cases hren : env.render f with
  | error e => exact ⟨rfl, rfl⟩
  | ok pr =>
    obtain ⟨code, lits⟩ := pr
    cases hu : (UpsertHash h (f ++ templGoSuffix) (env.hashFn code)).1 with
    | true =>
      have h2 := UpsertHash_true hu
      by_cases hw : env.writerOk (f ++ templGoSuffix) code
      · simp only [hu, hw, if_true]
        constructor
        · rw [(generateTxt_frame env _ true _ lits).1, h2]
        · rw [(generateTxt_frame env _ true _ lits).2, h2]
      · simp only [hu, hw, Bool.false_eq_true, if_true, if_false]
        rw [h2]
        exact ⟨rfl, rfl⟩
    | false =>
      obtain ⟨h2, _⟩ := UpsertHash_false hu
      simp only [hu, Bool.false_eq_true, if_false]
      constructor
      · rw [(generateTxt_frame env _ false _ lits).1, h2]
      · rw [(generateTxt_frame env _ false _ lits).2, h2]

theorem generate_err_none {env : Env} (h : FSEventHandler) {f : List Char}
    {code lits : List Nat}
    (hren : env.render f = .ok (code, lits))
    (hw : env.writerOk (f ++ templGoSuffix) code = true)
    (ht : env.txtWriteOk txtFileName lits = true) :
    (generate env h f).err = none := by
  unfold generate
  rw [hren]
  cases hu : (UpsertHash h (f ++ templGoSuffix) (env.hashFn code)).1 with
  | true => simp [hu, hw, generateTxt_err_none ht]
  | false => simp [hu, generateTxt_err_none ht]

theorem handleEvent_gen_error {env : Env} {h h' : FSEventHandler} {ev : Event} {t : Nat}
    {e : GError}
    (hs : codeTxtSuffix.isSuffixOf ev.name = false)
    (hc : ContainsDotCodeDot ev.name = true)
    (hup : UpsertLastModTime env.stat h ev.name = ((t, true), h'))
    (hge : (generate env h' ev.name).err = some e) :
    HandleEvent env h ev =
      ⟨(generate env h' ev.name).goUpdated, (generate env h' ev.name).textUpdated,
       some (HError.failedToGenerate ev.name e),
       (SetError (generate env h' ev.name).handler ev.name true).2,
       [ev.name], (generate env h' ev.name).writerCalls,
       (generate env h' ev.name).txtWriteCalls, [], false⟩ := by
  unfold HandleEvent
  simp [hs, hc, hup, hge]

theorem handleEvent_gen_ok {env : Env} {h h' : FSEventHandler} {ev : Event} {t : Nat}
    (hs : codeTxtSuffix.isSuffixOf ev.name = false)
    (hc : ContainsDotCodeDot ev.name = true)
    (hup : UpsertLastModTime env.stat h ev.name = ((t, true), h'))
    (hge : (generate env h' ev.name).err = none) :
    HandleEvent env h ev =
      ⟨(generate env h' ev.name).goUpdated, (generate env h' ev.name).textUpdated, none,
       (SetError (generate env h' ev.name).handler ev.name false).2,
       [ev.name], (generate env h' ev.name).writerCalls,
       (generate env h' ev.name).txtWriteCalls, [],
       (SetError (generate env h' ev.name).handler ev.name false).1.1⟩ := by
  unfold HandleEvent
  simp [hs, hc, hup, hge]

/-! ## C4: modification-time short-circuit -/

/-- C4: UpsertLastModTime returns `false` without mutating the store when
the stat fails (never an error) or when the observed time is not strictly
after the stored one; the store is monotone per path and entries are never
removed; and whenever it reports `false`, HandleEvent short-circuits to a
complete no-op — in particular the renderer is never invoked. -/
theorem C4_upsert_mod_time_short_circuit (env : Env) (h : FSEventHandler) (ev : Event)
    (t : Nat) :
    (env.stat ev.name = none →
      UpsertLastModTime env.stat h ev.name = ((0, false), h)) ∧
    (env.stat ev.name = some t → t ≤ lookupD0 h.fileNameToLastModTime ev.name →
      UpsertLastModTime env.stat h ev.name = ((t, false), h)) ∧
    (∀ p, lookupD0 h.fileNameToLastModTime p ≤
      lookupD0 (UpsertLastModTime env.stat h ev.name).2.fileNameToLastModTime p) ∧
    (∀ p u, alookup h.fileNameToLastModTime p = some u →
      ∃ u', alookup (UpsertLastModTime env.stat h ev.name).2.fileNameToLastModTime p =
        some u' ∧ u ≤ u') ∧
    (codeTxtSuffix.isSuffixOf ev.name = false →
      (UpsertLastModTime env.stat h ev.name).1.2 = false →
      HandleEvent env h ev = ⟨false, false, none, h, [], [], [], [], false⟩) := by
  refine ⟨?_, ?_, ?_, ?_, ?_⟩
  · intro hn
    unfold UpsertLastModTime
    rw [hn]
  · intro hsome hle
    unfold UpsertLastModTime
    rw [hsome]
    simp [hle]
  · intro p
    unfold UpsertLastModTime
    cases hs : env.stat ev.name with
    | none => exact le_refl _
    | some t' =>
      dsimp only
      by_cases hle : t' ≤ lookupD0 h.fileNameToLastModTime ev.name
      · rw [if_pos hle]
      · rw [if_neg hle]
        by_cases hp : ev.name = p
        · subst hp
          show lookupD0 h.fileNameToLastModTime ev.name ≤
            lookupD0 ((ev.name, t') :: h.fileNameToLastModTime) ev.name
          have hcons : lookupD0 ((ev.name, t') :: h.fileNameToLastModTime) ev.name = t' := by
            simp [lookupD0, alookup]
          rw [hcons]
          omega
        · simp [lookupD0, alookup, hp]
  · intro p u hu
    unfold UpsertLastModTime
    cases hs : env.stat ev.name with
    | none => exact ⟨u, hu, le_refl u⟩
    | some t' =>
      dsimp only
      by_cases hle : t' ≤ lookupD0 h.fileNameToLastModTime ev.name
      · rw [if_pos hle]
        exact ⟨u, hu, le_refl u⟩
      · rw [if_neg hle]
        by_cases hp : ev.name = p
        · subst hp
          refine ⟨t', by simp [alookup], ?_⟩
          simp only [lookupD0, hu, Option.getD_some] at hle
          omega
        · exact ⟨u, by simp [alookup, hp, hu], le_refl u⟩
  · intro hsuf hupd
    have h2 := UpsertLastModTime_not_updated hupd
    unfold HandleEvent
    by_cases hc : ContainsDotCodeDot ev.name
    · simp [hsuf, hc, hupd, h2]
    · simp [hsuf, hc]

/-- Witness for C4 at a concrete input where the stat fails. -/
theorem C4_upsert_mod_time_short_circuit_witness :
    UpsertLastModTime trivEnv.stat (NewFSEventHandler true) sampleName =
      ((0, false), NewFSEventHandler true) ∧
    HandleEvent trivEnv (NewFSEventHandler true) ⟨sampleName, false⟩ =
      ⟨false, false, none, NewFSEventHandler true, [], [], [], [], false⟩ := by
  have hthm := C4_upsert_mod_time_short_circuit trivEnv (NewFSEventHandler true)
    ⟨sampleName, false⟩ 0
  exact ⟨hthm.1 rfl, hthm.2.2.2.2 (by decide) (by decide)⟩

/-! ## C6: error registry transition -/

/-- C6: when the renderer fails for a relevant, freshly modified path,
HandleEvent records the path in the error registry and returns an error
wrapping the renderer's error and naming the path; when a subsequent
attempt for the same path succeeds (strictly newer modification time,
renderer and writers succeeding), no error is returned, the error-cleared
transition is reported (`previouslyHadError = true`) and the path is
removed from the registry. -/
theorem C6_error_registry_transition (env env' : Env) (h : FSEventHandler) (ev : Event)
    (e : List Char) (code lits : List Nat) (t1 t2 : Nat)
    (hs : codeTxtSuffix.isSuffixOf ev.name = false)
    (hc : ContainsDotCodeDot ev.name = true)
    (hstat : env.stat ev.name = some t1)
    (hnew : lookupD0 h.fileNameToLastModTime ev.name < t1)
    (hren : env.render ev.name = .error e) :
    (HandleEvent env h ev).err =
        some (HError.failedToGenerate ev.name (GError.renderError ev.name e)) ∧
    (HandleEvent env h ev).goUpdated = false ∧
    (HandleEvent env h ev).textUpdated = false ∧
    ev.name ∈ (HandleEvent env h ev).handler.fileNameToError ∧
    (env'.stat ev.name = some t2 → t1 < t2 →
     env'.render ev.name = .ok (code, lits) →
     env'.writerOk (ev.name ++ templGoSuffix) code = true →
     env'.txtWriteOk txtFileName lits = true →
     (HandleEvent env' (HandleEvent env h ev).handler ev).err = none ∧
     (HandleEvent env' (HandleEvent env h ev).handler ev).errorCleared = true ∧
     ev.name ∉ (HandleEvent env' (HandleEvent env h ev).handler ev).handler.fileNameToError) := by
  have hup1 := UpsertLastModTime_updated hstat hnew
  have hgen1 : generate env
      { h with fileNameToLastModTime := (ev.name, t1) :: h.fileNameToLastModTime } ev.name =
      ⟨false, false, some (GError.renderError ev.name e),
       { h with fileNameToLastModTime := (ev.name, t1) :: h.fileNameToLastModTime },
       [], []⟩ := by
    unfold generate
    rw [hren]
  have hr1 : HandleEvent env h ev =
      ⟨false, false, some (HError.failedToGenerate ev.name (GError.renderError ev.name e)),
       (SetError { h with fileNameToLastModTime := (ev.name, t1) :: h.fileNameToLastModTime }
          ev.name true).2,
       [ev.name], [], [], [], false⟩ := by
    rw [handleEvent_gen_error hs hc hup1 (by rw [hgen1]), hgen1]
  rw [hr1]
  dsimp only
  refine ⟨rfl, rfl, rfl, ?_, ?_⟩
  · rw [SetError_errors_true]
    exact List.mem_cons_self _ _
  · intro hstat2 hlt2 hren2 hw2 ht2
    have hlook : lookupD0 (SetError { h with fileNameToLastModTime :=
        (ev.name, t1) :: h.fileNameToLastModTime } ev.name true).2.fileNameToLastModTime
        ev.name = t1 := by
      rw [(SetError_frame _ _ _).1]
      simp [lookupD0, alookup]
    have hlt2' : lookupD0 (SetError { h with fileNameToLastModTime :=
        (ev.name, t1) :: h.fileNameToLastModTime } ev.name true).2.fileNameToLastModTime
        ev.name < t2 := by
      rw [hlook]
      exact hlt2
    have hup2 := UpsertLastModTime_updated hstat2 hlt2'
    have hgerr := generate_err_none
      ({ (SetError { h with fileNameToLastModTime :=
          (ev.name, t1) :: h.fileNameToLastModTime } ev.name true).2 with
            fileNameToLastModTime := (ev.name, t2) ::
              (SetError { h with fileNameToLastModTime :=
                (ev.name, t1) :: h.fileNameToLastModTime } ev.name true).2.fileNameToLastModTime })
      hren2 hw2 ht2
    rw [handleEvent_gen_ok hs hc hup2 hgerr]
    dsimp only
    refine ⟨rfl, ?_, ?_⟩
    · rw [SetError_prev, (generate_frame env' _ ev.name).2]
      have hSerrs : ({ (SetError { h with fileNameToLastModTime :=
          (ev.name, t1) :: h.fileNameToLastModTime } ev.name true).2 with
            fileNameToLastModTime := (ev.name, t2) ::
              (SetError { h with fileNameToLastModTime :=
                (ev.name, t1) :: h.fileNameToLastModTime } ev.name true).2.fileNameToLastModTime } :
          FSEventHandler).fileNameToError =
          ev.name :: h.fileNameToError.filter (fun m => m ≠ ev.name) := rfl
      rw [hSerrs]
      simp
    · rw [SetError_errors_false]
      intro hmem
      rw [(generate_frame env' _ ev.name).2] at hmem
      have hpair := List.mem_filter.mp hmem
      simp at hpair

/-- Witness for C6 at concrete inputs: a failing render followed by a
succeeding one for the file `a.code.go`. -/
theorem C6_error_registry_transition_witness :
    (HandleEvent envFail (NewFSEventHandler false) ⟨sampleName, false⟩).err =
      some (HError.failedToGenerate sampleName (GError.renderError sampleName ['x'])) ∧
    sampleName ∈ (HandleEvent envFail (NewFSEventHandler false)
      ⟨sampleName, false⟩).handler.fileNameToError ∧
    (HandleEvent envOk (HandleEvent envFail (NewFSEventHandler false)
      ⟨sampleName, false⟩).handler ⟨sampleName, false⟩).errorCleared = true ∧
    sampleName ∉ (HandleEvent envOk (HandleEvent envFail (NewFSEventHandler false)
      ⟨sampleName, false⟩).handler ⟨sampleName, false⟩).handler.fileNameToError := by
  have hthm := C6_error_registry_transition envFail envOk (NewFSEventHandler false)
    ⟨sampleName, false⟩ ['x'] [7] [8] 1 2 (by decide) (by decide) rfl (by decide) rfl
  have hrest := hthm.2.2.2.2 rfl (by decide) rfl rfl rfl
  exact ⟨hthm.1, hthm.2.2.2.1, hrest.2.1, hrest.2.2⟩

/-! ## C9: EscapeWriter -/

theorem escProcessed_foldl (p : List Nat) (acc : List Nat) :
    p.foldl (fun processed b =>
      if b = 34 then processed ++ [92, 34]
      else if b = 10 then processed ++ [92, 110]
      else processed ++ [b]) acc = acc ++ escSpec p := by
  induction p generalizing acc with
  | nil => simp [escSpec]
  | cons b rest ih =>
    rw [List.foldl_cons, ih]
    by_cases h34 : b = 34
    · simp [escSpec, escByteSpec, h34]
    · by_cases h10 : b = 10 <;> simp [escSpec, escByteSpec, h34, h10]

theorem escProcessed_eq_spec (p : List Nat) : escProcessed p = escSpec p := by
  unfold escProcessed
  rw [escProcessed_foldl]
  simp

theorem escByteSpec_length_ge (b : Nat) : 1 ≤ (escByteSpec b).length := by
  unfold escByteSpec
  by_cases h34 : b = 34
  · simp [h34]
  · by_cases h10 : b = 10 <;> simp [h34, h10]

theorem escSpec_length_ge (p : List Nat) : p.length ≤ (escSpec p).length := by
  induction p with
  | nil => simp [escSpec]
  | cons b rest ih =>
    have hb := escByteSpec_length_ge b
    simp only [escSpec, List.flatMap_cons, List.length_append, List.length_cons] at *
    omega

theorem escSpec_length_gt {p : List Nat} (hmem : 34 ∈ p ∨ 10 ∈ p) :
    p.length < (escSpec p).length := by
  induction p with
  | nil => simp at hmem
  | cons b rest ih =>
    have hge := escSpec_length_ge rest
    have hb := escByteSpec_length_ge b
    simp only [escSpec, List.flatMap_cons, List.length_append, List.length_cons] at *
    rcases hmem with hm | hm
    · rcases List.mem_cons.mp hm with hbeq | hr
      · have h2 : (escByteSpec b).length = 2 := by
          rw [← hbeq]
          rfl
        omega
      · have := ih (Or.inl hr)
        omega
    · rcases List.mem_cons.mp hm with hbeq | hr
      · have h2 : (escByteSpec b).length = 2 := by
          rw [← hbeq]
          rfl
        omega
      · have := ih (Or.inr hr)
        omega

/-- C9: EscapeWriter.Write escapes every double quote as backslash-quote
and every newline as backslash-n, leaves other bytes unchanged, and
returns the underlying writer's count of the escaped output — for a
buffer that is the escaped length, which strictly exceeds the input
length whenever the input contains a quote or a newline, so the returned
count is not the number of input bytes consumed. -/
theorem C9_escape_writer (p : List Nat) :
    escProcessed p = escSpec p ∧
    escapeWriterWrite bufferWrite p = ((escSpec p).length, none) ∧
    p.length ≤ (escapeWriterWrite bufferWrite p).1 ∧
    ((34 ∈ p ∨ 10 ∈ p) → p.length < (escapeWriterWrite bufferWrite p).1) := by
  have hspec := escProcessed_eq_spec p
  refine ⟨hspec, ?_, ?_, ?_⟩
  · unfold escapeWriterWrite bufferWrite
    rw [hspec]
  · show p.length ≤ (bufferWrite (escProcessed p)).1
    unfold bufferWrite
    rw [hspec]
    exact escSpec_length_ge p
  · intro hmem
    show p.length < (bufferWrite (escProcessed p)).1
    unfold bufferWrite
    rw [hspec]
    exact escSpec_length_gt hmem

/-- Witness for C9 at a concrete input holding one double quote. -/
theorem C9_escape_writer_witness :
    ([34] : List Nat).length < (escapeWriterWrite bufferWrite [34]).1 :=
  (C9_escape_writer [34]).2.2.2 (Or.inl (by decide))

/-! ## C10: stripCode -/

theorem sepCode_prefix_decomp {c : Char} {rest : List Char}
    (hpre : sepCode.isPrefixOf (c :: rest) = true) :
    c = '.' ∧ ∃ t, rest = 'c' :: 'o' :: 'd' :: 'e' :: t := by
  rw [List.isPrefixOf_iff_prefix] at hpre
  obtain ⟨t, ht⟩ := hpre
  rw [show sepCode ++ t = '.' :: 'c' :: 'o' :: 'd' :: 'e' :: t from rfl] at ht
  injection ht with h1 h2
  exact ⟨h1.symm, t, h2.symm⟩

theorem sep_not_prefix_of_ne (c : Char) (hne : c ≠ '.') (l : List Char) :
    sepCode.isPrefixOf (c :: l) = false := by
  cases hb : sepCode.isPrefixOf (c :: l) with
  | false => rfl
  | true =>
    obtain ⟨hc, _⟩ := sepCode_prefix_decomp hb
    exact absurd hc hne

theorem occCode_code_tail (t : List Char) :
    occCode ('c' :: 'o' :: 'd' :: 'e' :: t) = occCode t := by
  have h1 := sep_not_prefix_of_ne 'c' (by decide) ('o' :: 'd' :: 'e' :: t)
  have h2 := sep_not_prefix_of_ne 'o' (by decide) ('d' :: 'e' :: t)
  have h3 := sep_not_prefix_of_ne 'd' (by decide) ('e' :: t)
  have h4 := sep_not_prefix_of_ne 'e' (by decide) t
  simp [occCode, h1, h2, h3, h4]

theorem splitCode_length (s : List Char) : (splitCode s).length = occCode s + 1 := by
  induction s using splitCode.induct with
  | case1 => simp [splitCode, occCode]
  | case2 c rest hpre ih =>
    obtain ⟨hc, t, ht⟩ := sepCode_prefix_decomp hpre
    subst hc
    subst ht
    rw [splitCode]
    rw [if_pos hpre]
    have hdrop : (('c' :: 'o' :: 'd' :: 'e' :: t) : List Char).drop 4 = t := rfl
    simp only [List.length_cons]
    rw [hdrop] at ih ⊢
    rw [ih]
    have hocc : occCode ('.' :: 'c' :: 'o' :: 'd' :: 'e' :: t) = 1 + occCode t := by
      rw [show occCode ('.' :: 'c' :: 'o' :: 'd' :: 'e' :: t) =
        (if sepCode.isPrefixOf ('.' :: 'c' :: 'o' :: 'd' :: 'e' :: t) then 1 else 0) +
          occCode ('c' :: 'o' :: 'd' :: 'e' :: t) from rfl]
      rw [if_pos hpre, occCode_code_tail]
    rw [hocc]
    omega
  | case3 c rest hpre heq ih =>
    rw [heq] at ih
    simp at ih
  | case4 c rest hpre p ps heq ih =>
    rw [splitCode]
    rw [if_neg (by simp [hpre]), heq]
    rw [heq] at ih
    simp only [List.length_cons] at *
    have hocc : occCode (c :: rest) = occCode rest := by
      simp [occCode, hpre]
    rw [hocc]
    omega

theorem splitCode_ne_nil (s : List Char) : splitCode s ≠ [] := by
  intro hnil
  have hl := splitCode_length s
  rw [hnil] at hl
  simp at hl

theorem joinCode_cons_of_ne {a : List Char} (l : List (List Char)) (hl : l ≠ []) :
    joinCode (a :: l) = a ++ sepCode ++ joinCode l := by
  cases l with
  | nil => exact absurd rfl hl
  | cons q ps => rfl

theorem joinCode_splitCode (s : List Char) : joinCode (splitCode s) = s := by
  induction s using splitCode.induct with
  | case1 => simp [splitCode, joinCode]
  | case2 c rest hpre ih =>
    obtain ⟨hc, t, ht⟩ := sepCode_prefix_decomp hpre
    subst hc
    subst ht
    rw [splitCode]
    rw [if_pos hpre]
    have hdrop : (('c' :: 'o' :: 'd' :: 'e' :: t) : List Char).drop 4 = t := rfl
    rw [hdrop] at ih ⊢
    rw [joinCode_cons_of_ne (splitCode t) (splitCode_ne_nil t), ih]
    rfl
  | case3 c rest hpre heq ih =>
    exact absurd heq (splitCode_ne_nil rest)
  | case4 c rest hpre p ps heq ih =>
    rw [splitCode]
    rw [if_neg (by simp [hpre]), heq]
    rw [heq] at ih
    cases ps with
    | nil =>
      have hp : p = rest := ih
      rw [show joinCode [c :: p] = c :: p from rfl, hp]
    | cons q ps2 =>
      rw [joinCode_cons_of_ne (q :: ps2) (by simp)]
      rw [joinCode_cons_of_ne (q :: ps2) (by simp)] at ih
      rw [← ih]
      simp

/-- C10: stripCode removes the single `.code` occurrence when the name
contains exactly one occurrence of `.code`, and returns the name
unchanged when the occurrence count is zero or at least two. -/
theorem C10_strip_code (s : List Char) :
    (occCode s = 1 → ∃ a b, s = a ++ sepCode ++ b ∧ stripCode s = a ++ b) ∧
    (occCode s ≠ 1 → stripCode s = s) := by
  constructor
  · intro h1
    have hlen : (splitCode s).length = 2 := by rw [splitCode_length, h1]
    obtain ⟨a, b, hab⟩ : ∃ a b, splitCode s = [a, b] := by
      cases hsp : splitCode s with
      | nil => rw [hsp] at hlen; simp at hlen
      | cons a l =>
        cases l with
        | nil => rw [hsp] at hlen; simp at hlen
        | cons b l2 =>
          cases l2 with
          | nil => exact ⟨a, b, rfl⟩
          | cons c l3 => rw [hsp] at hlen; simp at hlen
    refine ⟨a, b, ?_, ?_⟩
    · have hj := joinCode_splitCode s
      rw [hab] at hj
      rw [← hj]
      rfl
    · unfold stripCode
      rw [hab]
  · intro h1
    have hlen : (splitCode s).length ≠ 2 := by rw [splitCode_length]; omega
    cases hsp : splitCode s with
    | nil => unfold stripCode; rw [hsp]
    | cons a l =>
      cases l with
      | nil => unfold stripCode; rw [hsp]
      | cons b l2 =>
        cases l2 with
        | nil => rw [hsp] at hlen; simp at hlen
        | cons c l3 => unfold stripCode; rw [hsp]

/-- Witness for C10: `a.code.go` has one occurrence and is stripped;
`a` has none and is unchanged. -/
theorem C10_strip_code_witness :
    (∃ a b, sampleName = a ++ sepCode ++ b ∧ stripCode sampleName = a ++ b) ∧
    stripCode ['a'] = ['a'] :=
  ⟨(C10_strip_code sampleName).1 (by decide), (C10_strip_code ['a']).2 (by decide)⟩

end Snips
